import Mathlib

/-!
Shallow embedding of the richdiff comparison core: the problem data
model and aggregation of problems.rs, and the line comparison and
driver loop of main.rs.  Machine integers (usize) are modelled as Nat;
the one subtraction that can underflow is modelled both as truncating
Nat subtraction (mirroring the expression in the source) and as a
checked variant that signals the underflow that would panic a debug
build.  The csv error type is modelled abstractly as a String detail.
-/

namespace Richdiff

/-- Embeds enum ProblemCategory of problems.rs. The derived Rust Ord is
declaration order: MismatchedCells < ExtraCells < MissingCells <
ExtraLines < MissingLines. -/
inductive ProblemCategory
  | MismatchedCells
  | ExtraCells
  | MissingCells
  | ExtraLines
  | MissingLines
deriving DecidableEq

/-- Index of a category in the derived Ord order of the Rust enum. -/
def categoryIndex : ProblemCategory → Nat
  | .MismatchedCells => 0
  | .ExtraCells => 1
  | .MissingCells => 2
  | .ExtraLines => 3
  | .MissingLines => 4

/-- All five categories listed in the derived Ord (declaration) order. -/
def allCategories : List ProblemCategory :=
  [.MismatchedCells, .ExtraCells, .MissingCells, .ExtraLines, .MissingLines]

/-- Embeds enum LineProblem of problems.rs. -/
inductive LineProblem
  | MismatchedCell (line column : Nat) (expected actual : String)
  | ExtraCell (line column : Nat)
  | MissingCell (line column : Nat)
deriving DecidableEq

/-- Embeds struct ExtraLinesProblem of problems.rs. -/
structure ExtraLinesProblem where
  line : Nat
  num_extra : Nat
deriving DecidableEq

/-- Embeds struct MissingLinesProblem of problems.rs. -/
structure MissingLinesProblem where
  line : Nat
  num_missing : Nat
deriving DecidableEq

/-- Embeds enum FileProblem of problems.rs. -/
inductive FileProblem
  | ExtraLines (p : ExtraLinesProblem)
  | MissingLines (p : MissingLinesProblem)
deriving DecidableEq

/-- Embeds enum Problem of problems.rs. -/
inductive Problem
  | Line (p : LineProblem)
  | File (p : FileProblem)
deriving DecidableEq

/-- Embeds Problem::category of problems.rs. -/
def Problem.category : Problem → ProblemCategory
  | .Line (.MismatchedCell ..) => .MismatchedCells
  | .Line (.ExtraCell ..) => .ExtraCells
  | .Line (.MissingCell ..) => .MissingCells
  | .File (.ExtraLines _) => .ExtraLines
  | .File (.MissingLines _) => .MissingLines

/-- Embeds struct Problems of problems.rs (the aggregate state). -/
structure Problems where
  max_problems_to_display : Nat
  extra_lines_problem : Option ExtraLinesProblem
  missing_lines_problem : Option MissingLinesProblem
  line_problems : List LineProblem
deriving DecidableEq

/-- Embeds struct DisplayableProblems of problems.rs: the iterator
state, with the borrowed slice iterator modelled as the list of
elements not yet yielded. -/
structure DisplayableProblems where
  line_problems_to_display : Nat
  extra_lines_problem : Option ExtraLinesProblem
  missing_lines_problem : Option MissingLinesProblem
  iter : List LineProblem
deriving DecidableEq

/-- Embeds struct DisplayProblems of problems.rs (the export payload). -/
structure DisplayProblems where
  actual_filename : String
  num_problems : Nat
  found_max_problems : Bool
  problem_categories : List ProblemCategory
  problems : List Problem
deriving DecidableEq

/-- Embeds Problems::new of problems.rs. -/
def Problems.new (max_problems_to_display : Nat) : Problems :=
  { max_problems_to_display := max_problems_to_display
    extra_lines_problem := none
    missing_lines_problem := none
    line_problems := [] }

/-- Embeds Problems::len of problems.rs: line problem count plus one
per present file problem. -/
def Problems.len (p : Problems) : Nat :=
  p.line_problems.length
    + (p.extra_lines_problem.map fun _ => 1).getD 0
    + (p.missing_lines_problem.map fun _ => 1).getD 0

/-- Embeds Problems::insert_extra_lines_problem of problems.rs. -/
def Problems.insert_extra_lines_problem (p : Problems) (line : Nat) : Problems :=
  match p.extra_lines_problem with
  | none => { p with extra_lines_problem := some { line := line, num_extra := 1 } }
  | some e =>
      { p with extra_lines_problem := some { line := e.line, num_extra := e.num_extra + 1 } }

/-- Embeds Problems::insert_missing_lines_problem of problems.rs. -/
def Problems.insert_missing_lines_problem (p : Problems) (line : Nat) : Problems :=
  match p.missing_lines_problem with
  | none => { p with missing_lines_problem := some { line := line, num_missing := 1 } }
  | some m =>
      { p with missing_lines_problem := some { line := m.line, num_missing := m.num_missing + 1 } }

/-- Embeds Problems::insert_line_problem of problems.rs: an
unconditional Vec::push. -/
def Problems.insert_line_problem (p : Problems) (problem : LineProblem) : Problems :=
  { p with line_problems := p.line_problems ++ [problem] }

/-- Embeds Problems::displayable_problems of problems.rs. The inner
subtraction (len minus line count) is exact; the outer subtraction
(cap minus file problem count) is here truncating Nat subtraction,
with the underflow case singled out by the checked variant below. -/
def Problems.displayable_problems (p : Problems) : DisplayableProblems :=
  { line_problems_to_display :=
      min p.line_problems.length
        (p.max_problems_to_display - (p.len - p.line_problems.length))
    extra_lines_problem := p.extra_lines_problem
    missing_lines_problem := p.missing_lines_problem
    iter := p.line_problems }

/-- Checked counterpart of Problems::displayable_problems: none exactly
when the usize subtraction cap minus file problem count would
underflow (a panic in a debug build). -/
def Problems.displayable_problems_checked (p : Problems) : Option DisplayableProblems :=
  if p.max_problems_to_display < p.len - p.line_problems.length then none
  else some p.displayable_problems

/-- Embeds the Iterator::next implementation for DisplayableProblems of
problems.rs, as a step function from iterator state to an optional
yielded item and successor state.  Mirrors the source exactly: the
file problem branches yield a clone of the stored problem and leave
the state unchanged (the source never clears the Option). -/
def DisplayableProblems.next (s : DisplayableProblems) :
    Option (Problem × DisplayableProblems) :=
  if 0 < s.line_problems_to_display then
    match s.iter with
    | lp :: rest =>
        some (Problem.Line lp,
          { s with line_problems_to_display := s.line_problems_to_display - 1, iter := rest })
    | [] => none
  else
    match s.extra_lines_problem with
    | some e => some (Problem.File (FileProblem.ExtraLines e), s)
    | none =>
        match s.missing_lines_problem with
        | some m => some (Problem.File (FileProblem.MissingLines m), s)
        | none => none

/-- Unfolds the DisplayableProblems iterator for at most fuel steps,
collecting the yielded problems in order.  This models a for loop over
the iterator: the loop itself has no step bound, so a run of the loop
that terminates is one whose unfolding reaches a none step within its
fuel. -/
def DisplayableProblems.takeDisplayed (s : DisplayableProblems) : Nat → List Problem
  | 0 => []
  | fuel + 1 =>
      match s.next with
      | none => []
      | some (pr, s2) => pr :: s2.takeDisplayed fuel

/-- Models the HashSet of categories plus the sorted() call of
Problems::display_data: the distinct categories present among the
given problems, listed in the fixed derived Ord order of the category
enum. -/
def sortedCategories (ps : List Problem) : List ProblemCategory :=
  allCategories.filter fun c => ps.any fun pr => pr.category = c

/-- Embeds Problems::display_data of problems.rs.  The for loop over
displayable_problems is modelled by takeDisplayed with explicit fuel;
the category set accumulated during the loop and then sorted is
modelled by sortedCategories of the collected problems. -/
def Problems.display_data (p : Problems) (actual_filename : String) (fuel : Nat) :
    DisplayProblems :=
  let displayed := p.displayable_problems.takeDisplayed fuel
  { actual_filename := actual_filename
    num_problems := p.len
    found_max_problems := decide (p.len ≥ p.max_problems_to_display)
    problem_categories := sortedCategories displayed
    problems := displayed }

/-- All recorded problems of the aggregate, line problems first then
the file problems.  This follows the wording of the specification
(categoriesPresent ranges over all recorded problems); it is the
comparison point for the category claim, not a function of the
source. -/
def Problems.allProblems (p : Problems) : List Problem :=
  p.line_problems.map Problem.Line
    ++ (match p.extra_lines_problem with
        | some e => [Problem.File (FileProblem.ExtraLines e)]
        | none => [])
    ++ (match p.missing_lines_problem with
        | some m => [Problem.File (FileProblem.MissingLines m)]
        | none => [])

/-- Embeds struct Summary of main.rs.  The csv::Error values are
modelled as String details; a csv::StringRecord (one parsed row) is a
List String of fields. -/
structure Summary where
  problems : Problems
  errors : List String
  max_problems : Nat
deriving DecidableEq

/-- Embeds the DEFAULT_MAX_PROBLEMS constant of main.rs. -/
def DEFAULT_MAX_PROBLEMS : Nat := 50

/-- Embeds Summary::new of main.rs. -/
def Summary.new (max_problems : Option Nat) : Summary :=
  { problems := Problems.new (max_problems.getD DEFAULT_MAX_PROBLEMS)
    errors := []
    max_problems := max_problems.getD DEFAULT_MAX_PROBLEMS }

/-- Embeds the zip_longest loop body of Summary::compare_line of
main.rs, with the mutable column counter made an explicit argument.
The Both arm records a MismatchedCell exactly when the field texts
differ, the Left arm (expected only) records a MissingCell, the Right
arm (actual only) records an ExtraCell, and the counter increments
once per position in every arm. -/
def compareCellsGo (s : Summary) (line_number column_number : Nat) :
    List String → List String → Summary
  | expected :: es, actual :: more =>
      let mc := LineProblem.MismatchedCell line_number column_number expected actual
      let s2 := if expected ≠ actual then { s with problems := s.problems.insert_line_problem mc } else s
      compareCellsGo s2 line_number (column_number + 1) es more
  | _ :: es, [] =>
      let mc := LineProblem.MissingCell line_number column_number
      compareCellsGo { s with problems := s.problems.insert_line_problem mc }
        line_number (column_number + 1) es []
  | [], _ :: more =>
      let mc := LineProblem.ExtraCell line_number column_number
      compareCellsGo { s with problems := s.problems.insert_line_problem mc }
        line_number (column_number + 1) [] more
  | [], [] => s

/-- Embeds Summary::compare_line of main.rs: the column counter starts
at 1. -/
def Summary.compare_line (s : Summary) (line_number : Nat)
    (expected_line actual_line : List String) : Summary :=
  compareCellsGo s line_number 1 expected_line actual_line

/-- Embeds the EitherOrBoth::Both arm of the loop body of
Summary::compare_lines of main.rs: both sides produced a row at this
line.  The match arm order mirrors the source (both sides failing push
expected then actual). -/
def stepBothSummary (s : Summary) (line_number : Nat)
    (me ma : Except String (List String)) : Summary :=
  match me, ma with
  | .ok expected_line, .ok actual_line =>
      s.compare_line line_number expected_line actual_line
  | .error e1, .error e2 => { s with errors := s.errors ++ [e1, e2] }
  | .error e1, _ => { s with errors := s.errors ++ [e1] }
  | _, .error e2 => { s with errors := s.errors ++ [e2] }

/-- Embeds the EitherOrBoth::Left arm of the loop body of
Summary::compare_lines of main.rs: only the expected side still has a
row, so a successful parse signals a missing line. -/
def stepLeftSummary (s : Summary) (line_number : Nat)
    (me : Except String (List String)) : Summary :=
  match me with
  | .ok _ => { s with problems := s.problems.insert_missing_lines_problem line_number }
  | .error e => { s with errors := s.errors ++ [e] }

/-- Embeds the EitherOrBoth::Right arm of the loop body of
Summary::compare_lines of main.rs: only the actual side still has a
row, so a successful parse signals an extra line. -/
def stepRightSummary (s : Summary) (line_number : Nat)
    (ma : Except String (List String)) : Summary :=
  match ma with
  | .ok _ => { s with problems := s.problems.insert_extra_lines_problem line_number }
  | .error e => { s with errors := s.errors ++ [e] }

/-- Embeds the zip_longest loop of Summary::compare_lines of main.rs,
with the mutable line counter made an explicit argument and the three
loop-body arms named as the step functions above.  The record
stream of each side is a list of parse results.  After each step the loop breaks if
the error list is non-empty, mirroring the break in the source. -/
def compareLinesGo (s : Summary) (line_number : Nat) :
    List (Except String (List String)) → List (Except String (List String)) → Summary
  | me :: es, ma :: more =>
      let s2 := stepBothSummary s line_number me ma
      if s2.errors.isEmpty then compareLinesGo s2 (line_number + 1) es more else s2
  | me :: es, [] =>
      let s2 := stepLeftSummary s line_number me
      if s2.errors.isEmpty then compareLinesGo s2 (line_number + 1) es [] else s2
  | [], ma :: more =>
      let s2 := stepRightSummary s line_number ma
      if s2.errors.isEmpty then compareLinesGo s2 (line_number + 1) [] more else s2
  | [], [] => s

/-- Embeds Summary::compare_lines of main.rs: the line counter starts
at 1. -/
def Summary.compare_lines (s : Summary)
    (expected actual : List (Except String (List String))) : Summary :=
  compareLinesGo s 1 expected actual

/-- Embeds the comparison path of main of main.rs once both readers
opened: run compare_lines on a fresh Summary, then either surface the
collected errors as a failure outcome (handle_crash) or export the
display payload (generate_report via display_data). -/
def runComparison (expected actual : List (Except String (List String)))
    (max_problems : Option Nat) (actual_filename : String) (fuel : Nat) :
    Except (List String) DisplayProblems :=
  let s := (Summary.new max_problems).compare_lines expected actual
  if s.errors.isEmpty then .ok (s.problems.display_data actual_filename fuel)
  else .error s.errors

/-- Declarative description of the field discrepancies one compared
line pair produces: position j (0-based) is visited exactly once and
reported at column start_column + j; both sides present yields a
MismatchedCell exactly when the texts differ, expected only a
MissingCell, actual only an ExtraCell. -/
def lineProblemsSpec (line_number start_column : Nat)
    (expected_line actual_line : List String) : List LineProblem :=
  (List.range (max expected_line.length actual_line.length)).filterMap fun j =>
    match expected_line[j]?, actual_line[j]? with
    | some e, some a =>
        if e = a then none
        else some (.MismatchedCell line_number (start_column + j) e a)
    | some _, none => some (.MissingCell line_number (start_column + j))
    | none, some _ => some (.ExtraCell line_number (start_column + j))
    | none, none => none

/-- Classifies one zip_longest step of the driver as failing: either
side present and a parse error.  Position k of the streams expected
and actual is examined through get?. -/
def stepErr : Option (Except String (List String)) → Option (Except String (List String)) → Bool
  | some (.error _), _ => true
  | _, some (.error _) => true
  | _, _ => false

/-- The errors one zip_longest step pushes, in the order of the match
arms of Summary::compare_lines: both sides failing push expected then
actual; otherwise the single failing side. -/
def stepErrors : Option (Except String (List String)) → Option (Except String (List String)) →
    List String
  | some (.error e1), some (.error e2) => [e1, e2]
  | some (.error e1), _ => [e1]
  | _, some (.error e2) => [e2]
  | _, _ => []

/-- Concrete aggregate state realizing the truncation example of the
specification: cap 3, five field discrepancies, one extra-lines
problem anchored at line 6 with count 1. -/
def exTruncation : Problems :=
  { max_problems_to_display := 3
    extra_lines_problem := some { line := 6, num_extra := 1 }
    missing_lines_problem := none
    line_problems :=
      [.MissingCell 1 1, .MissingCell 2 1, .MissingCell 3 1, .MissingCell 4 1, .MissingCell 5 1] }

/-- Concrete aggregate state with two field discrepancies of distinct
categories and a display cap of 1, so that one of the categories
occurs only beyond the cap. -/
def exCategories : Problems :=
  { max_problems_to_display := 1
    extra_lines_problem := none
    missing_lines_problem := none
    line_problems := [.MismatchedCell 1 1 "a" "b", .ExtraCell 1 2] }

/-- Concrete expected-side stream: two well-formed rows. -/
def ewHalt : List (Except String (List String)) := [.ok ["a", "b"], .ok ["c"]]

/-- Concrete actual-side stream: one well-formed row that mismatches at
column 2, then a malformed row. -/
def awHalt : List (Except String (List String)) := [.ok ["a", "x"], .error "malformed"]

end Richdiff

namespace Richdiff

/-- Lemma: folding insert_extra_lines_problem over further lines only
increments the stored count, keeping the anchor line. -/
theorem foldl_insert_extra (ls : List Nat) :
    ∀ (q : Problems) (e : ExtraLinesProblem), q.extra_lines_problem = some e →
      (ls.foldl Problems.insert_extra_lines_problem q).extra_lines_problem
        = some { line := e.line, num_extra := e.num_extra + ls.length } := by
  induction ls with
  | nil => intro q e h; simpa using h
  | cons l ls ih =>
      intro q e h
      have hstep : (q.insert_extra_lines_problem l).extra_lines_problem
          = some { line := e.line, num_extra := e.num_extra + 1 } := by
        simp [Problems.insert_extra_lines_problem, h]
      rw [List.foldl_cons, ih (q.insert_extra_lines_problem l) _ hstep]
      simp only [List.length_cons]
      congr 2
      omega

/-- Lemma: folding insert_missing_lines_problem over further lines only
increments the stored count, keeping the anchor line. -/
theorem foldl_insert_missing (ls : List Nat) :
    ∀ (q : Problems) (m : MissingLinesProblem), q.missing_lines_problem = some m →
      (ls.foldl Problems.insert_missing_lines_problem q).missing_lines_problem
        = some { line := m.line, num_missing := m.num_missing + ls.length } := by
  induction ls with
  | nil => intro q m h; simpa using h
  | cons l ls ih =>
      intro q m h
      have hstep : (q.insert_missing_lines_problem l).missing_lines_problem
          = some { line := m.line, num_missing := m.num_missing + 1 } := by
        simp [Problems.insert_missing_lines_problem, h]
      rw [List.foldl_cons, ih (q.insert_missing_lines_problem l) _ hstep]
      simp only [List.length_cons]
      congr 2
      omega

/-- C1: the claim says the displayed-problem sequence is finite, capped
at cap entries, with the extra-lines problem appearing exactly once;
on the example given in the specification (cap 3, five field discrepancies,
one extra-lines problem) the iterator embedded from the source instead
yields the extra-lines problem on every step after the two displayed
field discrepancies, because next never clears the stored Option: ten
steps yield ten items, eight of them the same extra-lines problem, so
the display loop never reaches the end of the iterator. -/
theorem display_iteration_repeats_extra_lines :
    exTruncation.displayable_problems.takeDisplayed 10
      = [Problem.Line (.MissingCell 1 1), Problem.Line (.MissingCell 2 1),
         Problem.File (.ExtraLines { line := 6, num_extra := 1 }),
         Problem.File (.ExtraLines { line := 6, num_extra := 1 }),
         Problem.File (.ExtraLines { line := 6, num_extra := 1 }),
         Problem.File (.ExtraLines { line := 6, num_extra := 1 }),
         Problem.File (.ExtraLines { line := 6, num_extra := 1 }),
         Problem.File (.ExtraLines { line := 6, num_extra := 1 }),
         Problem.File (.ExtraLines { line := 6, num_extra := 1 }),
         Problem.File (.ExtraLines { line := 6, num_extra := 1 })]
    ∧ exTruncation.len = 6 := by
  exact ⟨rfl, rfl⟩

/-- C5: starting from a state with no row-count discrepancy in either
direction, the first recording call for a direction creates the
singleton problem with count 1 anchored at the given line, and each
subsequent call only increments the count, leaving the anchor
unchanged, so repeated imbalance never creates new entries. -/
theorem row_count_problem_singleton_counter (p : Problems) (l l0 : Nat) (ls ms : List Nat)
    (hE : p.extra_lines_problem = none) (hM : p.missing_lines_problem = none) :
    ((ls.foldl Problems.insert_extra_lines_problem
        (p.insert_extra_lines_problem l)).extra_lines_problem
      = some { line := l, num_extra := ls.length + 1 })
    ∧ ((ms.foldl Problems.insert_missing_lines_problem
        (p.insert_missing_lines_problem l0)).missing_lines_problem
      = some { line := l0, num_missing := ms.length + 1 }) := by
  constructor
  · have hstep : (p.insert_extra_lines_problem l).extra_lines_problem
        = some { line := l, num_extra := 1 } := by
      simp [Problems.insert_extra_lines_problem, hE]
    simpa [Nat.add_comm] using foldl_insert_extra ls _ _ hstep
  · have hstep : (p.insert_missing_lines_problem l0).missing_lines_problem
        = some { line := l0, num_missing := 1 } := by
      simp [Problems.insert_missing_lines_problem, hM]
    simpa [Nat.add_comm] using foldl_insert_missing ms _ _ hstep

/-- Witness for C5 at a concrete state: fresh aggregate, extra lines
recorded at line 4 then twice more, missing lines recorded at line 9
then once more. -/
theorem row_count_problem_singleton_counter_witness :
    (([7, 9].foldl Problems.insert_extra_lines_problem
        ((Problems.new 5).insert_extra_lines_problem 4)).extra_lines_problem
      = some { line := 4, num_extra := 3 })
    ∧ (([2].foldl Problems.insert_missing_lines_problem
        ((Problems.new 5).insert_missing_lines_problem 9)).missing_lines_problem
      = some { line := 9, num_missing := 2 }) :=
  row_count_problem_singleton_counter (Problems.new 5) 4 9 [7, 9] [2] rfl rfl

/-- C6: the exported truncation flag is true exactly when the exported
total problem count reaches the configured display cap. -/
theorem truncated_iff_total_ge_cap (p : Problems) (name : String) (fuel : Nat) :
    (p.display_data name fuel).found_max_problems = true
      ↔ (p.display_data name fuel).num_problems ≥ p.max_problems_to_display := by
  simp [Problems.display_data]

/-- C7: inserting a field discrepancy always appends it (nothing is
dropped at insertion time, whatever the current volume), the total
count grows by exactly one, and the exported total equals the true
recorded total, uncapped by the display limit. -/
theorem insertion_uncapped_and_total_true (p : Problems) (lp : LineProblem)
    (name : String) (fuel : Nat) :
    (p.insert_line_problem lp).line_problems = p.line_problems ++ [lp]
    ∧ (p.insert_line_problem lp).len = p.len + 1
    ∧ (p.display_data name fuel).num_problems = p.len := by
  refine ⟨rfl, ?_, rfl⟩
  simp [Problems.insert_line_problem, Problems.len]
  omega

/-- C8: each of the three recording operations leaves the total problem
count greater than or equal to what it was, so the total is
monotonically non-decreasing over a run and never resets. -/
theorem total_count_monotone (p : Problems) (lp : LineProblem) (l1 l2 : Nat) :
    p.len ≤ (p.insert_line_problem lp).len
    ∧ p.len ≤ (p.insert_extra_lines_problem l1).len
    ∧ p.len ≤ (p.insert_missing_lines_problem l2).len := by
  refine ⟨?_, ?_, ?_⟩
  · simp [Problems.insert_line_problem, Problems.len]
  · cases hE : p.extra_lines_problem <;>
      simp [Problems.insert_extra_lines_problem, Problems.len, hE]
  · cases hM : p.missing_lines_problem <;>
      simp [Problems.insert_missing_lines_problem, Problems.len, hM]

/-- C10: when the display cap is at least 1 and at most one row-count
discrepancy is present, the subtraction cap minus file problem count
cannot underflow, so constructing the display iterator does not
panic. -/
theorem displayable_no_underflow (p : Problems)
    (hcap : 1 ≤ p.max_problems_to_display)
    (hone : p.extra_lines_problem = none ∨ p.missing_lines_problem = none) :
    (p.displayable_problems_checked).isSome = true := by
  have hfc : p.len - p.line_problems.length ≤ 1 := by
    rcases hone with h | h
    · cases hM : p.missing_lines_problem <;> simp [Problems.len, h, hM]
    · cases hE : p.extra_lines_problem <;> simp [Problems.len, h, hE]
  simp only [Problems.displayable_problems_checked]
  rw [if_neg (by omega)]
  rfl

/-- Witness for C10 at a concrete state: a fresh aggregate with cap 1. -/
theorem displayable_no_underflow_witness :
    ((Problems.new 1).displayable_problems_checked).isSome = true :=
  displayable_no_underflow (Problems.new 1) (by decide) (Or.inl rfl)

/-- Lemma: the five categories appear in allCategories in strictly
increasing index order. -/
theorem allCategories_pairwise :
    allCategories.Pairwise fun c c2 => categoryIndex c < categoryIndex c2 := by
  decide

/-- Lemma: every category is listed in allCategories. -/
theorem mem_allCategories (c : ProblemCategory) : c ∈ allCategories := by
  cases c <;> decide

/-- C2 counterexample: on an aggregate with a mismatched cell and an
extra cell but display cap 1, the exported category list covers only
the one displayed problem, so it differs from the distinct categories
of all recorded problems that the claim requires. -/
theorem display_categories_ignore_truncated_counterexample :
    (exCategories.display_data "actual.csv" 10).problem_categories
      ≠ sortedCategories exCategories.allProblems := by
  decide

/-- C2 amended: the exported category list equals the set of distinct
categories of the displayed problems only (problems cut off by the
display cap do not contribute), presented in the fixed category order
Mismatched Cells, Extra Cells, Missing Cells, Extra Lines, Missing
Lines. -/
theorem display_categories_sorted_and_complete_for_displayed
    (p : Problems) (name : String) (fuel : Nat) :
    (p.display_data name fuel).problem_categories.Pairwise
        (fun c c2 => categoryIndex c < categoryIndex c2)
    ∧ ∀ c : ProblemCategory,
        (c ∈ (p.display_data name fuel).problem_categories
          ↔ ∃ pr ∈ (p.display_data name fuel).problems, pr.category = c) := by
  have hcats : (p.display_data name fuel).problem_categories
      = sortedCategories (p.displayable_problems.takeDisplayed fuel) := rfl
  have hprobs : (p.display_data name fuel).problems
      = p.displayable_problems.takeDisplayed fuel := rfl
  constructor
  · rw [hcats]
    unfold sortedCategories
    exact List.Pairwise.sublist (List.filter_sublist _) allCategories_pairwise
  · intro c
    rw [hcats, hprobs]
    unfold sortedCategories
    simp [List.mem_filter, mem_allCategories c, List.any_eq_true]

/-- Lemma: comparing a single line pair touches only the line-problem
sequence: the two row-count slots, the error list and the configured
maximum are unchanged. -/
theorem compareCellsGo_preserves (s : Summary) (line c : Nat) (e a : List String) :
    (compareCellsGo s line c e a).problems.extra_lines_problem
        = s.problems.extra_lines_problem
    ∧ (compareCellsGo s line c e a).problems.missing_lines_problem
        = s.problems.missing_lines_problem
    ∧ (compareCellsGo s line c e a).errors = s.errors
    ∧ (compareCellsGo s line c e a).max_problems = s.max_problems := by
  induction s, line, c, e, a using compareCellsGo.induct with
  | case1 s line c x es y more mc s2 ih =>
      unfold s2 mc at ih
      simp only [compareCellsGo]
      split_ifs at ih ⊢ <;> simpa [Problems.insert_line_problem] using ih
  | case2 s line c x es mc ih =>
      unfold mc at ih
      simpa [compareCellsGo, Problems.insert_line_problem] using ih
  | case3 s line c y more mc ih =>
      unfold mc at ih
      simpa [compareCellsGo, Problems.insert_line_problem] using ih
  | case4 s line c => simp [compareCellsGo]

/-- Lemma: insert_missing_lines_problem leaves the extra-lines slot
unchanged. -/
theorem insert_missing_preserves_extra (p : Problems) (l : Nat) :
    (p.insert_missing_lines_problem l).extra_lines_problem = p.extra_lines_problem := by
  cases h : p.missing_lines_problem <;> simp [Problems.insert_missing_lines_problem, h]

/-- Lemma: insert_extra_lines_problem leaves the missing-lines slot
unchanged. -/
theorem insert_extra_preserves_missing (p : Problems) (l : Nat) :
    (p.insert_extra_lines_problem l).missing_lines_problem = p.missing_lines_problem := by
  cases h : p.extra_lines_problem <;> simp [Problems.insert_extra_lines_problem, h]

/-- Lemma: a Both step leaves both row-count slots unchanged: the
comparison of one aligned pair records only field discrepancies or
errors. -/
theorem stepBothSummary_preserves_file (s : Summary) (line : Nat)
    (me ma : Except String (List String)) :
    (stepBothSummary s line me ma).problems.extra_lines_problem
        = s.problems.extra_lines_problem
    ∧ (stepBothSummary s line me ma).problems.missing_lines_problem
        = s.problems.missing_lines_problem := by
  rcases me with e1 | r1 <;> rcases ma with e2 | r2 <;>
    simp [stepBothSummary, Summary.compare_line,
      (compareCellsGo_preserves _ _ _ _ _).1, (compareCellsGo_preserves _ _ _ _ _).2.1]

/-- Lemma: a Left step never touches the extra-lines slot. -/
theorem stepLeftSummary_extra (s : Summary) (line : Nat)
    (me : Except String (List String)) :
    (stepLeftSummary s line me).problems.extra_lines_problem
        = s.problems.extra_lines_problem := by
  rcases me with er | r <;> simp [stepLeftSummary, insert_missing_preserves_extra]

/-- Lemma: a Right step never touches the missing-lines slot. -/
theorem stepRightSummary_missing (s : Summary) (line : Nat)
    (ma : Except String (List String)) :
    (stepRightSummary s line ma).problems.missing_lines_problem
        = s.problems.missing_lines_problem := by
  rcases ma with er | r <;> simp [stepRightSummary, insert_extra_preserves_missing]

/-- Lemma: the driver can only have set the extra-lines problem if it
already was set, or the actual stream is longer than the expected
stream. -/
theorem compareLinesGo_extra_source (s : Summary) (line : Nat)
    (e a : List (Except String (List String))) :
    (compareLinesGo s line e a).problems.extra_lines_problem.isSome = true →
      s.problems.extra_lines_problem.isSome = true ∨ e.length < a.length := by
  induction s, line, e, a using compareLinesGo.induct with
  | case1 s line me es ma more s2 hok ih =>
      intro h
      unfold s2 at hok ih
      simp only [compareLinesGo] at h
      rw [if_pos hok] at h
      rcases ih h with h2 | h2
      · left
        rw [(stepBothSummary_preserves_file s line me ma).1] at h2
        exact h2
      · right
        simp only [List.length_cons]
        omega
  | case2 s line me es ma more s2 hbad =>
      intro h
      unfold s2 at hbad
      simp only [compareLinesGo] at h
      rw [if_neg hbad] at h
      left
      rw [(stepBothSummary_preserves_file s line me ma).1] at h
      exact h
  | case3 s line me es s2 hok ih =>
      intro h
      unfold s2 at hok ih
      simp only [compareLinesGo] at h
      rw [if_pos hok] at h
      rcases ih h with h2 | h2
      · left
        rw [stepLeftSummary_extra s line me] at h2
        exact h2
      · exact absurd h2 (by simp)
  | case4 s line me es s2 hbad =>
      intro h
      unfold s2 at hbad
      simp only [compareLinesGo] at h
      rw [if_neg hbad] at h
      left
      rw [stepLeftSummary_extra s line me] at h
      exact h
  | case5 s line ma more s2 hok ih =>
      intro _
      right
      simp
  | case6 s line ma more s2 hbad =>
      intro _
      right
      simp
  | case7 s line =>
      intro h
      simp only [compareLinesGo] at h
      exact Or.inl h

/-- Lemma: the driver can only have set the missing-lines problem if it
already was set, or the expected stream is longer than the actual
stream. -/
theorem compareLinesGo_missing_source (s : Summary) (line : Nat)
    (e a : List (Except String (List String))) :
    (compareLinesGo s line e a).problems.missing_lines_problem.isSome = true →
      s.problems.missing_lines_problem.isSome = true ∨ a.length < e.length := by
  induction s, line, e, a using compareLinesGo.induct with
  | case1 s line me es ma more s2 hok ih =>
      intro h
      unfold s2 at hok ih
      simp only [compareLinesGo] at h
      rw [if_pos hok] at h
      rcases ih h with h2 | h2
      · left
        rw [(stepBothSummary_preserves_file s line me ma).2] at h2
        exact h2
      · right
        simp only [List.length_cons]
        omega
  | case2 s line me es ma more s2 hbad =>
      intro h
      unfold s2 at hbad
      simp only [compareLinesGo] at h
      rw [if_neg hbad] at h
      left
      rw [(stepBothSummary_preserves_file s line me ma).2] at h
      exact h
  | case3 s line me es s2 hok ih =>
      intro _
      right
      simp
  | case4 s line me es s2 hbad =>
      intro _
      right
      simp
  | case5 s line ma more s2 hok ih =>
      intro h
      unfold s2 at hok ih
      simp only [compareLinesGo] at h
      rw [if_pos hok] at h
      rcases ih h with h2 | h2
      · left
        rw [stepRightSummary_missing s line ma] at h2
        exact h2
      · exact absurd h2 (by simp)
  | case6 s line ma more s2 hbad =>
      intro h
      unfold s2 at hbad
      simp only [compareLinesGo] at h
      rw [if_neg hbad] at h
      left
      rw [stepRightSummary_missing s line ma] at h
      exact h
  | case7 s line =>
      intro h
      simp only [compareLinesGo] at h
      exact Or.inl h

/-- Lemma: the positional spec on two non-empty rows splits off the
head position (a mismatched cell exactly when the texts differ) and
continues at the next column. -/
theorem lineProblemsSpec_cons_cons (line c : Nat) (x y : String) (es more : List String) :
    lineProblemsSpec line c (x :: es) (y :: more)
      = (if x = y then [] else [.MismatchedCell line c x y])
        ++ lineProblemsSpec line (c + 1) es more := by
  unfold lineProblemsSpec
  rw [List.length_cons, List.length_cons, Nat.succ_max_succ, List.range_succ_eq_map,
    List.filterMap_cons, List.filterMap_map]
  have hcongr : ∀ j ∈ List.range (max es.length more.length),
      ((fun j => match (x :: es)[j]?, (y :: more)[j]? with
        | some e, some a =>
            if e = a then none
            else some (LineProblem.MismatchedCell line (c + j) e a)
        | some _, none => some (.MissingCell line (c + j))
        | none, some _ => some (.ExtraCell line (c + j))
        | none, none => none) ∘ Nat.succ) j
      = (fun j => match es[j]?, more[j]? with
        | some e, some a =>
            if e = a then none
            else some (LineProblem.MismatchedCell line (c + 1 + j) e a)
        | some _, none => some (.MissingCell line (c + 1 + j))
        | none, some _ => some (.ExtraCell line (c + 1 + j))
        | none, none => none) j := by
    intro j hj
    simp only [Function.comp, Nat.succ_eq_add_one, List.getElem?_cons_succ]
    rw [show c + (j + 1) = c + 1 + j from by omega]
  rw [List.filterMap_congr hcongr]
  by_cases hxy : x = y <;> simp [hxy]

/-- Lemma: the positional spec with the actual row exhausted splits off
a missing cell at the head position. -/
theorem lineProblemsSpec_cons_nil (line c : Nat) (x : String) (es : List String) :
    lineProblemsSpec line c (x :: es) []
      = .MissingCell line c :: lineProblemsSpec line (c + 1) es [] := by
  unfold lineProblemsSpec
  rw [List.length_cons, List.length_nil, Nat.max_zero, Nat.max_zero, List.range_succ_eq_map,
    List.filterMap_cons, List.filterMap_map]
  have hcongr : ∀ j ∈ List.range es.length,
      ((fun j => match (x :: es)[j]?, ([] : List String)[j]? with
        | some e, some a =>
            if e = a then none
            else some (LineProblem.MismatchedCell line (c + j) e a)
        | some _, none => some (.MissingCell line (c + j))
        | none, some _ => some (.ExtraCell line (c + j))
        | none, none => none) ∘ Nat.succ) j
      = (fun j => match es[j]?, ([] : List String)[j]? with
        | some e, some a =>
            if e = a then none
            else some (LineProblem.MismatchedCell line (c + 1 + j) e a)
        | some _, none => some (.MissingCell line (c + 1 + j))
        | none, some _ => some (.ExtraCell line (c + 1 + j))
        | none, none => none) j := by
    intro j hj
    simp only [Function.comp, Nat.succ_eq_add_one, List.getElem?_cons_succ, List.getElem?_nil]
    rw [show c + (j + 1) = c + 1 + j from by omega]
  rw [List.filterMap_congr hcongr]
  simp

/-- Lemma: the positional spec with the expected row exhausted splits
off an extra cell at the head position. -/
theorem lineProblemsSpec_nil_cons (line c : Nat) (y : String) (more : List String) :
    lineProblemsSpec line c [] (y :: more)
      = .ExtraCell line c :: lineProblemsSpec line (c + 1) [] more := by
  unfold lineProblemsSpec
  rw [List.length_cons, List.length_nil, Nat.zero_max, Nat.zero_max, List.range_succ_eq_map,
    List.filterMap_cons, List.filterMap_map]
  have hcongr : ∀ j ∈ List.range more.length,
      ((fun j => match ([] : List String)[j]?, (y :: more)[j]? with
        | some e, some a =>
            if e = a then none
            else some (LineProblem.MismatchedCell line (c + j) e a)
        | some _, none => some (.MissingCell line (c + j))
        | none, some _ => some (.ExtraCell line (c + j))
        | none, none => none) ∘ Nat.succ) j
      = (fun j => match ([] : List String)[j]?, more[j]? with
        | some e, some a =>
            if e = a then none
            else some (LineProblem.MismatchedCell line (c + 1 + j) e a)
        | some _, none => some (.MissingCell line (c + 1 + j))
        | none, some _ => some (.ExtraCell line (c + 1 + j))
        | none, none => none) j := by
    intro j hj
    simp only [Function.comp, Nat.succ_eq_add_one, List.getElem?_cons_succ, List.getElem?_nil]
    rw [show c + (j + 1) = c + 1 + j from by omega]
  rw [List.filterMap_congr hcongr]
  simp

/-- Lemma: comparing the cells of a line pair appends exactly the
problems of the positional spec, starting at the given column. -/
theorem compareCellsGo_line_problems (s : Summary) (line c : Nat) (e a : List String) :
    (compareCellsGo s line c e a).problems.line_problems
      = s.problems.line_problems ++ lineProblemsSpec line c e a := by
  induction s, line, c, e, a using compareCellsGo.induct with
  | case1 s line c x es y more mc s2 ih =>
      unfold s2 mc at ih
      simp only [compareCellsGo]
      rw [lineProblemsSpec_cons_cons]
      by_cases hxy : x = y
      · simp only [hxy, ne_eq, not_true_eq_false, if_false, dite_eq_ite, if_true,
          ite_self] at ih ⊢
        simpa using ih
      · simp only [ne_eq, hxy, not_false_eq_true, if_true, dite_eq_ite, if_false] at ih ⊢
        rw [ih]
        simp [Problems.insert_line_problem]
  | case2 s line c x es mc ih =>
      unfold mc at ih
      simp only [compareCellsGo]
      rw [lineProblemsSpec_cons_nil, ih]
      simp [Problems.insert_line_problem]
  | case3 s line c y more mc ih =>
      unfold mc at ih
      simp only [compareCellsGo]
      rw [lineProblemsSpec_nil_cons, ih]
      simp [Problems.insert_line_problem]
  | case4 s line c =>
      simp [compareCellsGo, lineProblemsSpec]

/-- C4: comparing two successfully parsed rows at a shared line visits
positions left to right with the column counter starting at 1 and
advancing once per position in every branch: both-sides positions
yield a mismatched cell exactly when the texts differ (and nothing
when equal), expected-only positions yield a missing cell, actual-only
positions yield an extra cell; nothing else of the state changes. -/
theorem compare_line_emits_positional_problems (s : Summary) (line : Nat)
    (expected_line actual_line : List String) :
    (s.compare_line line expected_line actual_line).problems.line_problems
      = s.problems.line_problems ++ lineProblemsSpec line 1 expected_line actual_line
    ∧ (s.compare_line line expected_line actual_line).problems.extra_lines_problem
      = s.problems.extra_lines_problem
    ∧ (s.compare_line line expected_line actual_line).problems.missing_lines_problem
      = s.problems.missing_lines_problem
    ∧ (s.compare_line line expected_line actual_line).errors = s.errors :=
  ⟨compareCellsGo_line_problems s line 1 _ _,
   (compareCellsGo_preserves s line 1 _ _).1,
   (compareCellsGo_preserves s line 1 _ _).2.1,
   (compareCellsGo_preserves s line 1 _ _).2.2.1⟩

/-- Lemma: a failing step pushes at least one error. -/
theorem stepErrors_ne_nil (oe oa : Option (Except String (List String)))
    (h : stepErr oe oa = true) : stepErrors oe oa ≠ [] := by
  cases oe with
  | none =>
      cases oa with
      | none => simp [stepErr] at h
      | some ma =>
          rcases ma with e2 | r2
          · simp [stepErrors]
          · simp [stepErr] at h
  | some me =>
      rcases me with e1 | r1
      · cases oa with
        | none => simp [stepErrors]
        | some ma => rcases ma with e2 | r2 <;> simp [stepErrors]
      · cases oa with
        | none => simp [stepErr] at h
        | some ma =>
            rcases ma with e2 | r2
            · simp [stepErrors]
            · simp [stepErr] at h

/-- Lemma: a Both step on two successfully parsed rows keeps the error
list unchanged. -/
theorem stepBothSummary_ok_errors (s : Summary) (line : Nat) (r1 r2 : List String) :
    (stepBothSummary s line (.ok r1) (.ok r2)).errors = s.errors := by
  simp [stepBothSummary, Summary.compare_line, (compareCellsGo_preserves _ _ _ _ _).2.2.1]

/-- Lemma: if every step before position k parses on both sides and the
step at position k is the first to fail, the driver run equals the run
over the streams truncated before position k, except that the error
list carries exactly the errors of step k: nothing after the failing
step is processed. -/
theorem compareLinesGo_halts_at_first_error (k : Nat) :
    ∀ (e a : List (Except String (List String))) (s : Summary) (line : Nat),
      s.errors = [] →
      (∀ j, j < k → stepErr e[j]? a[j]? = false) →
      stepErr e[k]? a[k]? = true →
      compareLinesGo s line e a
        = { compareLinesGo s line (e.take k) (a.take k) with
            errors := stepErrors e[k]? a[k]? } := by
  induction k with
  | zero =>
      intro e a s line hs hpre hk
      cases e with
      | nil =>
          cases a with
          | nil => simp [stepErr] at hk
          | cons ma more =>
              rcases ma with e2 | r2
              · simp [compareLinesGo, stepRightSummary, stepErrors, hs]
              · simp [stepErr] at hk
      | cons me es =>
          cases a with
          | nil =>
              rcases me with e1 | r1
              · simp [compareLinesGo, stepLeftSummary, stepErrors, hs]
              · simp [stepErr] at hk
          | cons ma more =>
              rcases me with e1 | r1 <;> rcases ma with e2 | r2
              · simp [compareLinesGo, stepBothSummary, stepErrors, hs]
              · simp [compareLinesGo, stepBothSummary, stepErrors, hs]
              · simp [compareLinesGo, stepBothSummary, stepErrors, hs]
              · simp [stepErr] at hk
  | succ k ih =>
      intro e a s line hs hpre hk
      cases e with
      | nil =>
          cases a with
          | nil => simp [stepErr] at hk
          | cons ma more =>
              have hpre0 := hpre 0 (Nat.succ_pos k)
              rcases ma with e2 | r2
              · simp [stepErr] at hpre0
              · have hs2 : (stepRightSummary s line (Except.ok r2)).errors = [] := by
                  simp [stepRightSummary, hs]
                have hok : (stepRightSummary s line (Except.ok r2)).errors.isEmpty = true := by
                  rw [hs2]; rfl
                have hpre2 : ∀ j, j < k →
                    stepErr ([] : List (Except String (List String)))[j]? more[j]? = false := by
                  intro j hj
                  have := hpre (j + 1) (by omega)
                  simpa using this
                have hk2 : stepErr ([] : List (Except String (List String)))[k]? more[k]? = true := by
                  simpa using hk
                have hrec := ih [] more (stepRightSummary s line (Except.ok r2)) (line + 1)
                  hs2 hpre2 hk2
                calc compareLinesGo s line [] (Except.ok r2 :: more)
                    = compareLinesGo (stepRightSummary s line (Except.ok r2)) (line + 1) [] more := by
                      simp only [compareLinesGo]
                      rw [if_pos hok]
                  _ = _ := by
                      rw [hrec]
                      simp only [List.take_succ_cons, List.take_nil, List.getElem?_cons_succ,
                        List.getElem?_nil, compareLinesGo]
                      rw [if_pos hok]
      | cons me es =>
          have hpre0 := hpre 0 (Nat.succ_pos k)
          cases a with
          | nil =>
              rcases me with e1 | r1
              · simp [stepErr] at hpre0
              · have hs2 : (stepLeftSummary s line (Except.ok r1)).errors = [] := by
                  simp [stepLeftSummary, hs]
                have hok : (stepLeftSummary s line (Except.ok r1)).errors.isEmpty = true := by
                  rw [hs2]; rfl
                have hpre2 : ∀ j, j < k →
                    stepErr es[j]? ([] : List (Except String (List String)))[j]? = false := by
                  intro j hj
                  have := hpre (j + 1) (by omega)
                  simpa using this
                have hk2 : stepErr es[k]? ([] : List (Except String (List String)))[k]? = true := by
                  simpa using hk
                have hrec := ih es [] (stepLeftSummary s line (Except.ok r1)) (line + 1)
                  hs2 hpre2 hk2
                calc compareLinesGo s line (Except.ok r1 :: es) []
                    = compareLinesGo (stepLeftSummary s line (Except.ok r1)) (line + 1) es [] := by
                      simp only [compareLinesGo]
                      rw [if_pos hok]
                  _ = _ := by
                      rw [hrec]
                      simp only [List.take_succ_cons, List.take_nil, List.getElem?_cons_succ,
                        List.getElem?_nil, compareLinesGo]
                      rw [if_pos hok]
          | cons ma more =>
              rcases me with e1 | r1
              · simp [stepErr] at hpre0
              · rcases ma with e2 | r2
                · simp [stepErr] at hpre0
                · have hs2 : (stepBothSummary s line (Except.ok r1) (Except.ok r2)).errors = [] := by
                    rw [stepBothSummary_ok_errors, hs]
                  have hok : (stepBothSummary s line (Except.ok r1) (Except.ok r2)).errors.isEmpty
                      = true := by
                    rw [hs2]; rfl
                  have hpre2 : ∀ j, j < k → stepErr es[j]? more[j]? = false := by
                    intro j hj
                    have := hpre (j + 1) (by omega)
                    simpa using this
                  have hk2 : stepErr es[k]? more[k]? = true := by
                    simpa using hk
                  have hrec := ih es more (stepBothSummary s line (Except.ok r1) (Except.ok r2))
                    (line + 1) hs2 hpre2 hk2
                  calc compareLinesGo s line (Except.ok r1 :: es) (Except.ok r2 :: more)
                      = compareLinesGo (stepBothSummary s line (Except.ok r1) (Except.ok r2))
                          (line + 1) es more := by
                        simp only [compareLinesGo]
                        rw [if_pos hok]
                    _ = _ := by
                        rw [hrec]
                        simp only [List.take_succ_cons, List.getElem?_cons_succ, compareLinesGo]
                        rw [if_pos hok]

/-- C3: if every step before position k parses on both sides and step
k is the first with a parse failure, the driver stops right after step
k: the recorded errors are exactly those of step k (each failing side
reported, expected first), the recorded problems are those of the run
truncated before the failing step (nothing later is processed), and
the whole run yields a failure outcome instead of a display summary,
however many discrepancies were recorded before the failure. -/
theorem compare_halts_at_first_read_failure
    (expected actual : List (Except String (List String))) (mp : Option Nat)
    (name : String) (fuel : Nat) (k : Nat)
    (hpre : ∀ j, j < k → stepErr expected[j]? actual[j]? = false)
    (hk : stepErr expected[k]? actual[k]? = true) :
    ((Summary.new mp).compare_lines expected actual).errors
        = stepErrors expected[k]? actual[k]?
    ∧ ((Summary.new mp).compare_lines expected actual).errors ≠ []
    ∧ ((Summary.new mp).compare_lines expected actual).problems
        = ((Summary.new mp).compare_lines (expected.take k) (actual.take k)).problems
    ∧ runComparison expected actual mp name fuel
        = .error (stepErrors expected[k]? actual[k]?) := by
  have hrun := compareLinesGo_halts_at_first_error k expected actual (Summary.new mp) 1
    rfl hpre hk
  have herr : ((Summary.new mp).compare_lines expected actual).errors
      = stepErrors expected[k]? actual[k]? := by
    rw [Summary.compare_lines, hrun]
  have hne : ((Summary.new mp).compare_lines expected actual).errors ≠ [] := by
    rw [herr]
    exact stepErrors_ne_nil _ _ hk
  have hprob : ((Summary.new mp).compare_lines expected actual).problems
      = ((Summary.new mp).compare_lines (expected.take k) (actual.take k)).problems := by
    rw [Summary.compare_lines, hrun]
    rfl
  refine ⟨herr, hne, hprob, ?_⟩
  have hfalse : (stepErrors expected[k]? actual[k]?).isEmpty = false :=
    List.isEmpty_eq_false.mpr (stepErrors_ne_nil _ _ hk)
  simp only [runComparison, herr, hfalse, Bool.false_eq_true, if_false]

/-- Witness for C3 at a concrete pair of streams: the expected stream
has two good rows, the actual stream has one good row (which mismatches
at column 2) and then a malformed row at position 1, so the run stops
there, reports the single failing side and produces no summary. -/
theorem compare_halts_at_first_read_failure_witness :
    stepErr ewHalt[0]? awHalt[0]? = false
    ∧ stepErr ewHalt[1]? awHalt[1]? = true
    ∧ ((Summary.new none).compare_lines ewHalt awHalt).errors
        = stepErrors ewHalt[1]? awHalt[1]?
    ∧ runComparison ewHalt awHalt none "actual.csv" 10
        = .error (stepErrors ewHalt[1]? awHalt[1]?) := by
  have h := compare_halts_at_first_read_failure ewHalt awHalt none "actual.csv" 10 1
    (fun j hj => by
      have hj0 : j = 0 := by omega
      subst hj0
      decide)
    (by decide)
  exact ⟨by decide, by decide, h.1, h.2.2.2⟩

/-- C9: one driver run never records both row-count discrepancies:
starting from a fresh summary, at most one of the extra-lines and
missing-lines problems is present afterwards, since once one source is
exhausted every remaining step is one-sided in the same direction. -/
theorem at_most_one_row_count_direction
    (expected actual : List (Except String (List String))) (mp : Option Nat) :
    ((Summary.new mp).compare_lines expected actual).problems.extra_lines_problem = none
    ∨ ((Summary.new mp).compare_lines expected actual).problems.missing_lines_problem = none := by
  by_contra h
  push_neg at h
  obtain ⟨hE, hM⟩ := h
  have h1 := compareLinesGo_extra_source (Summary.new mp) 1 expected actual
    (by simpa [Option.isSome_iff_ne_none] using hE)
  have h2 := compareLinesGo_missing_source (Summary.new mp) 1 expected actual
    (by simpa [Option.isSome_iff_ne_none] using hM)
  rcases h1 with h1 | h1
  · simp [Summary.new, Problems.new] at h1
  · rcases h2 with h2 | h2
    · simp [Summary.new, Problems.new] at h2
    · omega

end Richdiff
